import Mathlib

/-!
Verification of the scalez-sensor device agent against its specification.

The definitions below are a shallow embedding of the Python sources:
`scale_reader.py` (frame decoding, the acquisition loop, the startup/publish
flow), `cloud_control.py` (the reconnect loop), `set_scale_interval.py` and
`adminPage/wifi_manager.py` (the sampling-interval command path), together
with a model of Python's `decimal.Decimal` string conversion and context
arithmetic on the ASCII fragment the device exercises, and of CPython's
`float()` conversion (round-to-nearest-even binary64).  Machine reals are
modelled exactly over `ℚ`; byte frames are `List Nat`.
-/

/-! ## Characters, digits and Python string helpers -/

/-- ASCII decimal digit test, as Python's regex `\d` behaves on
ASCII-decoded text (the frames have already passed `bytes.decode("ascii")`,
so no non-ASCII digits can occur). -/
def isAsciiDigit (c : Char) : Bool := decide (48 ≤ c.toNat ∧ c.toNat ≤ 57)

/-- Numeric value of an ASCII digit character. -/
def digitVal (c : Char) : Nat := c.toNat - 48

/-- Value of a digit string read most-significant first, with an
accumulator, as repeated `10*acc + digit`. -/
def natOfDigitsFrom : Nat → List Char → Nat
  | acc, [] => acc
  | acc, c :: cs => natOfDigitsFrom (10 * acc + digitVal c) cs

/-- Value of a digit string read most-significant first. -/
def natOfDigits (cs : List Char) : Nat := natOfDigitsFrom 0 cs

/-- The ASCII characters Python's `str.strip()` removes: the code points of
`str.isspace` below 128 (tab through carriage return, the four separator
controls, and the space). -/
def isPySpace (c : Char) : Bool :=
  decide (c.toNat = 9 ∨ c.toNat = 10 ∨ c.toNat = 11 ∨ c.toNat = 12 ∨ c.toNat = 13 ∨
    c.toNat = 28 ∨ c.toNat = 29 ∨ c.toNat = 30 ∨ c.toNat = 31 ∨ c.toNat = 32)

/-- Python `str.strip()` on ASCII text: whitespace removed from both ends. -/
def pyStrip (cs : List Char) : List Char :=
  ((cs.dropWhile isPySpace).reverse.dropWhile isPySpace).reverse

/-- Python `str.upper()` on one ASCII character. -/
def pyUpperChar (c : Char) : Char :=
  if 97 ≤ c.toNat ∧ c.toNat ≤ 122 then Char.ofNat (c.toNat - 32) else c

/-- Python `str.upper()` on ASCII text. -/
def pyUpper (s : String) : String := String.mk (s.toList.map pyUpperChar)

/-- The byte sequence of an ASCII string literal, for writing concrete
frames in statements. -/
def strBytes (s : String) : List Nat := s.toList.map Char.toNat

/-! ## Python `decimal.Decimal`: values -/

/-- A Python `Decimal` as the string constructor builds it: a finite value
`(-1)^neg * coeff * 10^exp`, a signed infinity, a quiet NaN or a signaling
NaN (payloads collapsed, since the device only ever consumes the value). -/
inductive PyDec where
  | num (neg : Bool) (coeff : Nat) (exp : Int)
  | inf (neg : Bool)
  | qnan
  | snan
deriving DecidableEq

/-- The exact rational value of a finite `Decimal`; `none` for the
non-finite values. -/
def PyDec.val? : PyDec → Option ℚ
  | .num neg c e => some ((if neg then -1 else 1) * (c : ℚ) * (10 : ℚ) ^ e)
  | _ => none

/-! ## Python `decimal.Decimal`: the string grammar

Modelled on `_pydecimal`'s conversion: the argument is stripped, its
underscores removed, and the result matched against
`[sign] (digits [. digits] | . digits) [E [sign] digits] | [sign] Inf(inity)
| [sign] [s] NaN digits*`, case-insensitively for the letter forms. -/

/-- Optional leading sign: `true` when a `-` was consumed. -/
def parseSign : List Char → Bool × List Char
  | [] => (false, [])
  | c :: rest =>
    if c = '-' then (true, rest)
    else if c = '+' then (false, rest)
    else (false, c :: rest)

/-- Longest digit run at the front, and the rest. -/
def spanDigits (cs : List Char) : List Char × List Char :=
  (cs.takeWhile isAsciiDigit, cs.dropWhile isAsciiDigit)

/-- The optional exponent tail `[eE][+-]?digits`; `some v` when the whole
rest is a well-formed (possibly absent) exponent of value `v`. -/
def parseExpTail : List Char → Option Int
  | [] => some 0
  | c :: rest =>
    if c = 'e' ∨ c = 'E' then
      let (eneg, r1) := parseSign rest
      let (eds, r2) := spanDigits r1
      if eds = [] ∨ r2 ≠ [] then none
      else some ((if eneg then -1 else 1) * (natOfDigits eds : Int))
    else none

/-- The numeric alternative after the sign: `digits [. digits] [exp]` or
`. digits [exp]`, with at least one coefficient digit; yields the
coefficient and the (exponent − fraction length). -/
def parseNumeric (cs : List Char) : Option (Nat × Int) :=
  let (ip, r1) := spanDigits cs
  match r1 with
  | '.' :: r2 =>
    let (fp, r3) := spanDigits r2
    if ip = [] ∧ fp = [] then none
    else
      match parseExpTail r3 with
      | some e => some (natOfDigits (ip ++ fp), e - (fp.length : Int))
      | none => none
  | _ =>
    if ip = [] then none
    else
      match parseExpTail r1 with
      | some e => some (natOfDigits ip, e)
      | none => none

/-- `true` when the lower-cased rest is `nan` followed by digits only. -/
def isNanBody : List Char → Bool
  | 'n' :: 'a' :: 'n' :: ds => ds.all isAsciiDigit
  | _ => false

/-- The letter alternatives after the sign (already lower-cased):
`inf`, `infinity`, `nan...`, `snan...`. -/
def parseSpecialLower (neg : Bool) (l : List Char) : Option PyDec :=
  if l = ['i', 'n', 'f'] ∨ l = ['i', 'n', 'f', 'i', 'n', 'i', 't', 'y'] then
    some (.inf neg)
  else
    match l with
    | 's' :: rest => if isNanBody rest then some .snan else none
    | _ => if isNanBody l then some .qnan else none

/-- Python `Decimal(s)` on an ASCII string: strip, drop underscores, then
the numeric-string grammar; `none` models the `InvalidOperation` the
constructor raises on anything else. -/
def pyDecOfChars (cs : List Char) : Option PyDec :=
  let body := pyStrip (cs.filter (fun c => c ≠ '_'))
  let (neg, rest) := parseSign body
  match parseNumeric rest with
  | some (c, e) => some (.num neg c e)
  | none => parseSpecialLower neg (rest.map Char.toLower)

/-! ## Python `decimal` context arithmetic (`sign * Decimal(...)`) -/

/-- The default `decimal` context precision. -/
def decPrecision : Nat := 28

/-- Round `c / d` (with `d > 0`) to the nearest integer, ties to even. -/
def roundHalfEvenDiv (c d : Nat) : Nat :=
  let q := c / d
  let r := c % d
  if 2 * r < d then q
  else if d < 2 * r then q + 1
  else if q % 2 = 0 then q else q + 1

/-- Decimal digit count, by fueled division (exact for `n < 10 ^ 200`,
far beyond any frame the device can carry). -/
def numDigitsAux : Nat → Nat → Nat
  | 0, _ => 1
  | fuel + 1, n => if n < 10 then 1 else numDigitsAux fuel (n / 10) + 1

/-- Decimal digit count of a coefficient. -/
def numDigits (n : Nat) : Nat := numDigitsAux 200 n

/-- Round a coefficient/exponent pair to the context precision of 28
significant digits, half to even — what `Context._fix` does to the exact
product inside `sign * Decimal(...)`.  Exact (no change) when the
coefficient already has at most 28 digits. -/
def roundPrec (c : Nat) (e : Int) : Nat × Int :=
  if c < 10 ^ decPrecision then (c, e)
  else
    let k := numDigits c - decPrecision
    (roundHalfEvenDiv c (10 ^ k), e + (k : Int))

/-- The Python expression `sign * Decimal(w)` with `sign ∈ {1, -1}`
(`s = true` for `-1`): an arithmetic operation, so the result is rounded
to context precision; multiplying a signaling NaN raises
`InvalidOperation` (`none`), a quiet NaN propagates. -/
def pyMulSign (s : Bool) : PyDec → Option PyDec
  | .num neg c e =>
    let p := roundPrec c e
    some (.num (xor s neg) p.1 p.2)
  | .inf neg => some (.inf (xor s neg))
  | .qnan => some .qnan
  | .snan => none

/-! ## The frame decoder (`SerialScale.read_weight`, scale_reader.py 255–271)

One candidate frame: `raw_data.decode("ascii").strip()`, the `sg`/`kg`
tag checks, the slice `data[2:-2]`, the hand-rolled `-` strip, and
`sign * Decimal(weight_str)`.  Any exception (`UnicodeDecodeError`,
`InvalidOperation`) is caught by the surrounding handler and the frame is
dropped, which the model renders as `none`. -/

/-- The device tag the decoder expects at the front of a frame. -/
def tagFront : List Char := ['s', 'g']

/-- The unit tag the decoder expects at the back of a frame. -/
def tagBack : List Char := ['k', 'g']

/-- `bytes.decode("ascii")`: every byte below 128, read as a character. -/
def asciiDecode? (raw : List Nat) : Option (List Char) :=
  if raw.all (fun b => b < 128) then some (raw.map Char.ofNat) else none

/-- Python's `data.startswith("sg")`. -/
def frontTagOk (cs : List Char) : Bool := cs.take 2 = tagFront

/-- Python's `data.endswith("kg")`. -/
def backTagOk (cs : List Char) : Bool := cs.drop (cs.length - 2) = tagBack

/-- Python's slice `data[2:-2]`. -/
def pySlice2m2 (cs : List Char) : List Char := (cs.drop 2).take (cs.length - 4)

/-- The decoder body on the decoded text. -/
def decodeChars (cs : List Char) : Option PyDec :=
  let data := pyStrip cs
  if frontTagOk data && backTagOk data then
    let ws := pySlice2m2 data
    let negCode : Bool := decide (ws.head? = some '-')
    let ws2 := if negCode then ws.drop 1 else ws
    match pyDecOfChars ws2 with
    | some d => pyMulSign negCode d
    | none => none
  else none

/-- `decode(frame)`: the full per-frame path of `SerialScale.read_weight`.
`some r` is an accepted reading, `none` a cleanly rejected frame
(`DecodeError` in the specification). -/
def decodeFrame (raw : List Nat) : Option PyDec :=
  match asciiDecode? raw with
  | some cs => decodeChars cs
  | none => none

/-- The rational value of an accepted finite reading. -/
def decodeFrameVal? (raw : List Nat) : Option ℚ :=
  (decodeFrame raw).bind PyDec.val?

/-! ## The specification's frame pattern (claim side)

The spec accepts exactly `<prefix><sign?><digits>[.<digits>]<suffix>`; the
next two definitions state that pattern, for comparison with the decoder. -/

/-- A frame of the specified pattern: the fixed front tag, an optional `-`,
a non-empty digit run, an optional `.` with a non-empty digit run, and the
unit tag. -/
def mkFrame (neg : Bool) (ds : List Char) (ofs : Option (List Char)) : List Nat :=
  ((tagFront ++ (if neg then ['-'] else []) ++ ds ++
    (match ofs with | some fs => '.' :: fs | none => []) ++ tagBack).map Char.toNat)

/-- The exact decimal the pattern frame denotes. -/
def exactVal (neg : Bool) (ds : List Char) (ofs : Option (List Char)) : ℚ :=
  let fs := ofs.getD []
  (if neg then -1 else 1) * ((natOfDigits ds : ℚ) + (natOfDigits fs : ℚ) / 10 ^ fs.length)

/-! ## CPython `float()` on a Decimal: round-to-nearest-even binary64

`save_measurement` and `publish_measurement` both serialise
`float(weight)`; the conversion is the correctly rounded binary64 value,
modelled exactly over `ℚ`. -/

/-- Binary digit count by fueled halving (exact for `n < 2 ^ 1100`, far
beyond any weight the device can produce). -/
def bitlenAux : Nat → Nat → Nat
  | 0, _ => 0
  | fuel + 1, n => if n = 0 then 0 else bitlenAux fuel (n / 2) + 1

/-- Binary digit count. -/
def bitlen (n : Nat) : Nat := bitlenAux 1100 n

/-- Whether `2^52 ≤ (a/b) * 2^z < 2^53`, with the sign of `z` cleared by
moving the power to the other side. -/
def inMantissaRange (a b : Nat) (z : Int) : Bool :=
  decide (b * 2 ^ (-z).toNat * 2 ^ 52 ≤ a * 2 ^ z.toNat ∧
    a * 2 ^ z.toNat < b * 2 ^ (-z).toNat * 2 ^ 53)

/-- The scaling exponent `z` with `(a/b) * 2^z` in `[2^52, 2^53)`, found
next to the bit-length estimate. -/
def scaleExp (a b : Nat) : Int :=
  let z0 : Int := 53 + (bitlen b : Int) - (bitlen a : Int)
  if inMantissaRange a b (z0 - 2) then z0 - 2
  else if inMantissaRange a b (z0 - 1) then z0 - 1
  else if inMantissaRange a b z0 then z0
  else z0 + 1

/-- Round-to-nearest, ties-to-even conversion of the positive rational
`a / b` to the value of a binary64 float: the 53-bit mantissa `m` at scale
`z`, giving `m * 2^(-z)`.  (Subnormal and overflow clamping is not
modelled; the device's weights are far inside the normal range.) -/
def float64Pos (a b : Nat) : ℚ :=
  let z := scaleExp a b
  let m := roundHalfEvenDiv (a * 2 ^ z.toNat) (b * 2 ^ (-z).toNat)
  (m : ℚ) * (2 : ℚ) ^ (-z)

/-- CPython `float(weight)` on an exact rational weight (zero and sign
split off via the numerator, the positive magnitude rounded to binary64). -/
def pyFloat (q : ℚ) : ℚ :=
  if q.num = 0 then 0
  else if q.num < 0 then -float64Pos (-q.num).toNat q.den
  else float64Pos q.num.toNat q.den

/-! ## The acquisition loop (`SerialScale.read_weight`, lines 236–284) -/

/-- One polling iteration: `none` when `in_waiting == 0` (no bytes
waiting, no parse attempted), otherwise the line `readline` returned, fed
through the frame decoder. -/
def readAttempt (entry : Option (List Nat)) : Option PyDec :=
  match entry with
  | none => none
  | some raw => decodeFrame raw

/-- The bounded polling loop: at most `fuel` iterations starting at index
`i` of the byte-stream schedule `s`; yields the first decoded reading and
the number of 0.5-second sleeps performed (one after every failed
iteration). -/
def readWeightAux (s : Nat → Option (List Nat)) : Nat → Nat → Option PyDec × Nat
  | 0, _ => (none, 0)
  | fuel + 1, i =>
    match readAttempt (s i) with
    | some w => (some w, 0)
    | none =>
      let r := readWeightAux s fuel (i + 1)
      (r.1, r.2 + 1)

/-- The message of the exception raised once the attempt budget is spent. -/
def noReadingMsg : String := "No valid weight data received"

/-- `read_weight` for one acquisition cycle: `max_attempts = 5`, half a
second of sleep after each failed attempt, then the no-reading error. -/
def read_weight (s : Nat → Option (List Nat)) : Except String PyDec × Nat :=
  let r := readWeightAux s 5 0
  match r.1 with
  | some w => (.ok w, r.2)
  | none => (.error noReadingMsg, r.2)

/-! ## The startup and publish flow (`main`, scale_reader.py 387–435) -/

/-- The `--device` argument (argparse restricts it to these choices; it
may be absent). -/
inductive DevKind | rs232 | bluetooth
deriving DecidableEq

/-- Observable steps of one run of `main`. -/
inductive Ev where
  | configLoaded
  | iotInit
  | mqttConnect
  | sensorRead
  | publishAttempt
  | publishLocalCopy
  | mqttDisconnect
deriving DecidableEq

/-- A file in `/tmp/measurements`: `save_measurement` writes the weight
with an `uploaded` flag; the post-publish copy inside
`publish_measurement` writes the payload, which carries no such flag.
Both store `float(weight)`. -/
inductive MeasFile where
  | withFlag (weight : ℚ) (uploaded : Bool)
  | payloadCopy (weight : ℚ)
deriving DecidableEq

/-- The environment one run of `main` sees: the filesystem, the broker
and the sensor.  Transport open/read failures are folded into
`readResult = none`. -/
structure RunEnv where
  configFileExists : Bool
  config : List (String × String)
  certPresent : Bool
  keyPresent : Bool
  rootPresent : Bool
  connectOk : Bool
  readResult : Option ℚ
  publishOk : Bool

/-- Dictionary lookup in the parsed JSON config. -/
def lookupKey (cfg : List (String × String)) (k : String) : Option String :=
  (cfg.find? (fun kv => kv.1 == k)).map (fun kv => kv.2)

/-- The `required_fields` of `ScaleConfig._load_config` (lines 54–62),
depending on the selected device. -/
def requiredFields : Option DevKind → List String
  | some .rs232 => ["device_id", "iot_endpoint", "stage", "serial_port", "baud_rate"]
  | some .bluetooth => ["device_id", "iot_endpoint", "stage", "bluetooth_mac"]
  | none => ["device_id", "iot_endpoint", "stage"]

/-- `ScaleConfig._load_config` (lines 45–72): a missing file or a missing
required field raises; otherwise the parsed config is returned. -/
def load_config (dev : Option DevKind) (e : RunEnv) :
    Except String (List (String × String)) :=
  if e.configFileExists = false then .error "Config file not found"
  else if (requiredFields dev).all (fun f => (lookupKey e.config f).isSome) then
    .ok e.config
  else .error "Missing required config fields"

/-- The certificate-file check of `IoTClient._create_mqtt_connection`
(lines 294–303): all three of cert, key and root CA must exist. -/
def certsOk (e : RunEnv) : Bool := e.certPresent && e.keyPresent && e.rootPresent

/-- `IoTClient.save_measurement` (lines 326–341): one durable record with
an `uploaded` flag, defaulting to `false`.  The source defines it; `main`
never calls it. -/
def save_measurement (weight : ℚ) (uploaded : Bool := false) : MeasFile :=
  .withFlag (pyFloat weight) uploaded

/-- `IoTClient.publish_measurement` (lines 342–376): publish first, and
only after the broker acknowledgment write the local payload copy; on
publish failure the exception propagates and nothing is written.
Returns the events, the files written, and whether it succeeded. -/
def publish_measurement (publishOk : Bool) (weight : ℚ) :
    List Ev × List MeasFile × Bool :=
  if publishOk then
    ([.publishAttempt, .publishLocalCopy], [.payloadCopy (pyFloat weight)], true)
  else ([.publishAttempt], [], false)

/-- One run of `main` (lines 387–435): exit code, event trace, and the
measurement files left on disk.  Any exception lands in the outer handler
and exits with status 1; failures after the connect still run the
`finally` disconnect. -/
def mainRun (dev : Option DevKind) (e : RunEnv) : Nat × List Ev × List MeasFile :=
  match load_config dev e with
  | .error _ => (1, [], [])
  | .ok cfg =>
    if certsOk e = false then (1, [.configLoaded], [])
    else if e.connectOk = false then (1, [.configLoaded, .iotInit], [])
    else
      let pre := [Ev.configLoaded, Ev.iotInit, Ev.mqttConnect]
      if dev ≠ some DevKind.rs232 ∧ (lookupKey cfg "connection_type").isNone then
        -- line 415 reads config["connection_type"]; a missing key raises
        (1, pre ++ [Ev.mqttDisconnect], [])
      else
        match e.readResult with
        | none => (1, pre ++ [Ev.sensorRead, Ev.mqttDisconnect], [])
        | some w =>
          let p := publish_measurement e.publishOk w
          if p.2.2 then
            -- line 428 logs config["connection_type"] after the publish
            if (lookupKey cfg "connection_type").isNone then
              (1, pre ++ [Ev.sensorRead] ++ p.1 ++ [Ev.mqttDisconnect], p.2.1)
            else
              (0, pre ++ [Ev.sensorRead] ++ p.1 ++ [Ev.mqttDisconnect], p.2.1)
          else (1, pre ++ [Ev.sensorRead] ++ p.1 ++ [Ev.mqttDisconnect], p.2.1)

/-! ## MeasurementStore (specification §4.2) -/

/-- Modelled from the spec: a Measurement record `{value, timestamp,
uploaded}` keyed by its timestamp (collision-free, one reading per cycle).
The repository's code persists such records only through
`save_measurement`; the spec's `markUploaded` and `pendingUnsent`
operations are declared in §4.2 but implemented nowhere in the source, so
the store is modelled from the spec's words as an append-ordered
(oldest-first) collection. -/
structure Measurement where
  value : ℚ
  timestamp : Nat
  uploaded : Bool
deriving DecidableEq

/-- Modelled from the spec: `append` writes one durable record. -/
def appendMeas (s : List Measurement) (m : Measurement) : List Measurement :=
  s ++ [m]

/-- Modelled from the spec: `markUploaded` flips the `uploaded` flag of
the record with the given timestamp key, in place. -/
def markUploaded (s : List Measurement) (ts : Nat) : List Measurement :=
  s.map (fun m => if m.timestamp = ts then { m with uploaded := true } else m)

/-- Modelled from the spec: `pendingUnsent` returns the unsent records
oldest-first, bounded by `limit`. -/
def pendingUnsent (s : List Measurement) (limit : Nat) : List Measurement :=
  (s.filter (fun m => !m.uploaded)).take limit

/-- A store mutation: the two operations the core performs on the store. -/
inductive StoreOp where
  | app (m : Measurement)
  | mark (ts : Nat)

/-- Apply one store operation. -/
def applyOp (s : List Measurement) : StoreOp → List Measurement
  | .app m => appendMeas s m
  | .mark ts => markUploaded s ts

/-- Apply a sequence of store operations, oldest first. -/
def applyOps (s : List Measurement) (ops : List StoreOp) : List Measurement :=
  ops.foldl applyOp s

/-! ## The reconnect loop (`CloudControl.run`, cloud_control.py 170–232) -/

/-- The sleeps `run` performs between connection cycles: whatever each
cycle's outcome (connect failure, publish failure, or a clean inner-loop
break), the outer iteration always ends with `time.sleep(5)`. -/
def cloudControlSleeps (outcomes : List Bool) : List ℚ :=
  outcomes.map (fun _ => 5)

/-- The reconnect delay observed after the `n`-th consecutive failed
cycle: the `n`-th sleep of a run of failures. -/
def cloudControlDelay (n : Nat) : ℚ :=
  (cloudControlSleeps (List.replicate (n + 1) false)).getD n 0

/-- The spec's backoff contract for a delay sequence: some jitter draw in
`[0, 1]` with `delay n = min (base * 2^n + jitter n) maxDelay`, the factor
doubling after each consecutive failure. -/
def specBackoff (base maxDelay : ℚ) (delay : Nat → ℚ) : Prop :=
  ∃ jit : Nat → ℚ, (∀ n, 0 ≤ jit n ∧ jit n ≤ 1) ∧
    ∀ n, delay n = min (base * 2 ^ n + jit n) maxDelay

/-! ## The sampling-interval command path (set_scale_interval.py and
the `/api/sampling-interval` POST handler of adminPage/wifi_manager.py) -/

/-- The interval mode persisted in `/etc/scale-reader/interval.json`. -/
inductive IntervalMode | FAST | SLOW | CUSTOM
deriving DecidableEq

/-- The persisted interval configuration. -/
structure IntervalConfig where
  mode : IntervalMode
  seconds : Int
deriving DecidableEq

/-- The mutually exclusive command-line argument of set_scale_interval. -/
inductive IntervalArg | fast | slow | custom (n : Int)
deriving DecidableEq

/-- What one run of set_scale_interval leaves behind: its exit code, the
interval config file (written only on success), and the systemd override
(written before systemctl runs, so present even when the restart fails). -/
structure SetIntervalResult where
  exitCode : Nat
  savedConfig : Option IntervalConfig
  overrideRestartSec : Option Int
deriving DecidableEq

/-- `update_service_timer` (lines 41–60): writes the override file, then
reloads and restarts the service; the systemctl outcome decides the
returned flag, the override file is written either way. -/
def update_service_timer (serviceOk : Bool) (seconds : Int) : Bool × Option Int :=
  (serviceOk, some seconds)

/-- The tail of `main` (lines 88–95): update the service, and only if
that succeeded save the config and exit 0; otherwise exit 1. -/
def setIntervalFinish (serviceOk : Bool) (mode : IntervalMode) (seconds : Int) :
    SetIntervalResult :=
  let u := update_service_timer serviceOk seconds
  if u.1 then ⟨0, some ⟨mode, seconds⟩, u.2⟩ else ⟨1, none, u.2⟩

/-- `main` of set_scale_interval.py (lines 62–95): FAST is 60 seconds,
SLOW is 1800, a custom value must lie in 10..86400 or the process exits
with status 1 before touching anything. -/
def set_interval_main (arg : IntervalArg) (serviceOk : Bool) : SetIntervalResult :=
  match arg with
  | .fast => setIntervalFinish serviceOk .FAST 60
  | .slow => setIntervalFinish serviceOk .SLOW 1800
  | .custom n =>
    if n < 10 ∨ n > 86400 then ⟨1, none, none⟩
    else setIntervalFinish serviceOk .CUSTOM n

/-- The JSON body of a POST to `/api/sampling-interval`: no JSON at all,
or an object with or without a `rate` member. -/
inductive PostBody | noJson | obj (rate : Option String)
deriving DecidableEq

/-- The JSON response the handler returns. -/
structure ApiResponse where
  success : Bool
  message : Option String
  errorText : Option String
deriving DecidableEq

/-- The POST branch of `sampling_interval`
(adminPage/wifi_manager.py 326–385): every path returns a response;
failures carry `success: false` and an error string.  Yields the response
and, when the helper script was invoked, its result. -/
def samplingIntervalPost (body : PostBody) (serviceOk : Bool) :
    ApiResponse × Option SetIntervalResult :=
  match body with
  | .noJson =>
    -- `'rate' not in data` with `data = None` raises TypeError, which the
    -- handler's blanket `except` turns into an error response
    (⟨false, none, some "argument of type NoneType is not iterable"⟩, none)
  | .obj none => (⟨false, none, some "Missing rate parameter"⟩, none)
  | .obj (some r) =>
    let rate := pyUpper r
    if rate ≠ "FAST" ∧ rate ≠ "SLOW" then
      (⟨false, none, some "Rate must be FAST or SLOW"⟩, none)
    else
      let res := set_interval_main (if rate = "FAST" then .fast else .slow) serviceOk
      if res.exitCode = 0 then
        (⟨true, some ("Sampling rate set to " ++ rate), none⟩, some res)
      else (⟨false, none, some "Failed to update interval"⟩, some res)

/-- Decidable matcher for the spec's pattern, over the raw bytes. -/
def matchesPattern (raw : List Nat) : Bool :=
  if raw.all (fun b => b < 128) then
    let cs := raw.map Char.ofNat
    if frontTagOk cs && backTagOk cs && decide (4 ≤ cs.length) then
      let ws := pySlice2m2 cs
      let ws2 := if ws.head? = some '-' then ws.drop 1 else ws
      let (ip, r1) := spanDigits ws2
      match r1 with
      | [] => decide (ip ≠ [])
      | '.' :: r2 => decide (ip ≠ []) && decide (r2 ≠ []) && r2.all isAsciiDigit
      | _ => false
    else false
  else false

/-! ## Supporting lemmas: digits, strings and the decimal parser -/

/-- Bounds of a digit character's code point. -/
theorem digit_bounds (c : Char) (h : isAsciiDigit c = true) :
    48 ≤ c.toNat ∧ c.toNat ≤ 57 := of_decide_eq_true h

/-- Digit characters are ASCII. -/
theorem digit_lt128 (c : Char) (h : isAsciiDigit c = true) : c.toNat < 128 := by
  have := digit_bounds c h
  omega

/-- A digit is not the minus sign. -/
theorem digit_ne_minus (c : Char) (h : isAsciiDigit c = true) : c ≠ '-' := by
  intro hc
  rw [hc] at h
  exact absurd (digit_bounds _ h).1 (by decide)

/-- A digit is not the plus sign. -/
theorem digit_ne_plus (c : Char) (h : isAsciiDigit c = true) : c ≠ '+' := by
  intro hc
  rw [hc] at h
  exact absurd (digit_bounds _ h).1 (by decide)

/-- A digit is not the decimal point. -/
theorem digit_ne_dot (c : Char) (h : isAsciiDigit c = true) : c ≠ '.' := by
  intro hc
  rw [hc] at h
  exact absurd (digit_bounds _ h).1 (by decide)

/-- A digit is not an underscore. -/
theorem digit_ne_underscore (c : Char) (h : isAsciiDigit c = true) : c ≠ '_' := by
  intro hc
  rw [hc] at h
  exact absurd (digit_bounds _ h).2 (by decide)

/-- A digit is not Python whitespace. -/
theorem digit_not_space (c : Char) (h : isAsciiDigit c = true) : isPySpace c = false := by
  have hb := digit_bounds c h
  cases hps : isPySpace c
  · rfl
  · exfalso
    simp only [isPySpace, decide_eq_true_eq] at hps
    omega

/-- Dropping while a predicate holds is the identity on lists that refute it. -/
theorem dropWhile_eq_self_of (p : Char → Bool) (l : List Char)
    (h : ∀ c ∈ l, p c = false) : l.dropWhile p = l := by
  cases l with
  | nil => rfl
  | cons a t => simp [List.dropWhile_cons, h a (by simp)]

/-- Stripping is the identity on whitespace-free text. -/
theorem pyStrip_eq_self (l : List Char) (h : ∀ c ∈ l, isPySpace c = false) :
    pyStrip l = l := by
  rw [pyStrip, dropWhile_eq_self_of _ _ h, dropWhile_eq_self_of, List.reverse_reverse]
  intro c hc
  exact h c (by simpa using hc)

/-- Underscore removal is the identity on underscore-free text. -/
theorem filter_underscore_eq_self (l : List Char) (h : ∀ c ∈ l, c ≠ '_') :
    l.filter (fun c => c ≠ '_') = l := by
  apply List.filter_eq_self.mpr
  intro a ha
  simpa using h a ha

/-- The accumulator form composes over append. -/
theorem natOfDigitsFrom_append (a b : List Char) :
    ∀ acc, natOfDigitsFrom acc (a ++ b) = natOfDigitsFrom (natOfDigitsFrom acc a) b := by
  induction a with
  | nil => intro acc; rfl
  | cons c t ih => intro acc; exact ih (10 * acc + digitVal c)

/-- Closed form of the accumulator. -/
theorem natOfDigitsFrom_eq (b : List Char) :
    ∀ acc, natOfDigitsFrom acc b = acc * 10 ^ b.length + natOfDigits b := by
  induction b with
  | nil =>
    intro acc
    rw [show natOfDigitsFrom acc [] = acc from rfl, show natOfDigits [] = 0 from rfl]
    simp
  | cons c t ih =>
    intro acc
    rw [show natOfDigitsFrom acc (c :: t) = natOfDigitsFrom (10 * acc + digitVal c) t from rfl,
      ih, show natOfDigits (c :: t) = natOfDigitsFrom (10 * 0 + digitVal c) t from rfl,
      ih (10 * 0 + digitVal c)]
    simp [List.length_cons]
    ring

/-- The value of concatenated digit runs. -/
theorem natOfDigits_append (a b : List Char) :
    natOfDigits (a ++ b) = natOfDigits a * 10 ^ b.length + natOfDigits b := by
  rw [natOfDigits, natOfDigitsFrom_append, natOfDigitsFrom_eq]
  rfl

/-- Taking digits runs past an all-digit block. -/
theorem takeWhile_digits_append (ds r : List Char) (h : ∀ c ∈ ds, isAsciiDigit c = true) :
    (ds ++ r).takeWhile isAsciiDigit = ds ++ r.takeWhile isAsciiDigit := by
  induction ds with
  | nil => simp
  | cons c t ih =>
    have hc : isAsciiDigit c = true := h c (by simp)
    simp only [List.cons_append, List.takeWhile_cons, hc, if_true]
    rw [ih (fun x hx => h x (by simp [hx]))]

/-- Dropping digits runs past an all-digit block. -/
theorem dropWhile_digits_append (ds r : List Char) (h : ∀ c ∈ ds, isAsciiDigit c = true) :
    (ds ++ r).dropWhile isAsciiDigit = r.dropWhile isAsciiDigit := by
  induction ds with
  | nil => simp
  | cons c t ih =>
    have hc : isAsciiDigit c = true := h c (by simp)
    simp only [List.cons_append, List.dropWhile_cons, hc, if_true]
    exact ih (fun x hx => h x (by simp [hx]))

/-- A digit block followed by a non-digit splits exactly there. -/
theorem spanDigits_split (ds r : List Char) (h : ∀ c ∈ ds, isAsciiDigit c = true)
    (hr : r.takeWhile isAsciiDigit = []) :
    spanDigits (ds ++ r) = (ds, r) := by
  have hd : r.dropWhile isAsciiDigit = r := by
    cases r with
    | nil => rfl
    | cons a t =>
      simp only [List.takeWhile_cons] at hr
      by_cases ha : isAsciiDigit a = true
      · rw [if_pos ha] at hr; simp at hr
      · simp [List.dropWhile_cons, ha]
  rw [spanDigits, takeWhile_digits_append ds r h, dropWhile_digits_append ds r h, hr, hd]
  simp

/-- An all-digit string is one span. -/
theorem spanDigits_all (l : List Char) (h : ∀ c ∈ l, isAsciiDigit c = true) :
    spanDigits l = (l, []) := by
  have := spanDigits_split l [] h rfl
  simpa using this

/-- No sign is consumed when the text starts with a digit. -/
theorem parseSign_of_digit_head (l : List Char)
    (h : ∀ c, l.head? = some c → isAsciiDigit c = true) : parseSign l = (false, l) := by
  cases l with
  | nil => rfl
  | cons c t =>
    have hc := h c rfl
    simp [parseSign, digit_ne_minus c hc, digit_ne_plus c hc]

/-- The numeric alternative on a pure digit run. -/
theorem parseNumeric_digits (ds : List Char) (hne : ds ≠ [])
    (h : ∀ c ∈ ds, isAsciiDigit c = true) :
    parseNumeric ds = some (natOfDigits ds, 0) := by
  have hspan : spanDigits ds = (ds, []) := spanDigits_all ds h
  simp only [parseNumeric, hspan]
  simp [hne, parseExpTail]

/-- The numeric alternative on digits, a point, and more digits. -/
theorem parseNumeric_digits_frac (ds fs : List Char) (hne : ds ≠ [])
    (hds : ∀ c ∈ ds, isAsciiDigit c = true) (hfs : ∀ c ∈ fs, isAsciiDigit c = true) :
    parseNumeric (ds ++ '.' :: fs) = some (natOfDigits (ds ++ fs), -(fs.length : Int)) := by
  have hspan : spanDigits (ds ++ '.' :: fs) = (ds, '.' :: fs) := by
    apply spanDigits_split ds ('.' :: fs) hds
    simp [List.takeWhile_cons, show isAsciiDigit '.' = false from by decide]
  have hspan2 : spanDigits fs = (fs, []) := spanDigits_all fs hfs
  simp only [parseNumeric, hspan, hspan2]
  simp [hne, parseExpTail]

/-- Parsing digits with an optional fraction, in both shapes at once. -/
theorem pyDecOfChars_digits (ds fs : List Char) (ofs : Option (List Char)) (hne : ds ≠ [])
    (hds : ∀ c ∈ ds, isAsciiDigit c = true)
    (hofs : ofs = none ∧ fs = [] ∨ ofs = some fs ∧ fs ≠ [])
    (hfs : ∀ c ∈ fs, isAsciiDigit c = true) :
    pyDecOfChars (ds ++ (match ofs with | some gs => '.' :: gs | none => [])) =
      some (.num false (natOfDigits (ds ++ fs))
        (match ofs with | some _ => -(fs.length : Int) | none => 0)) := by
  obtain ⟨d, ds0, rfl⟩ : ∃ d ds0, ds = d :: ds0 := by
    cases ds with
    | nil => exact absurd rfl hne
    | cons d ds0 => exact ⟨d, ds0, rfl⟩
  rcases hofs with ⟨ho, hf⟩ | ⟨ho, hf⟩ <;> subst ho
  · subst hf
    simp only [List.append_nil]
    have hfl : (d :: ds0).filter (fun c => c ≠ '_') = d :: ds0 :=
      filter_underscore_eq_self _ (fun c hc => digit_ne_underscore c (hds c hc))
    have hst : pyStrip (d :: ds0) = d :: ds0 :=
      pyStrip_eq_self _ (fun c hc => digit_not_space c (hds c hc))
    have hsign : parseSign (d :: ds0) = (false, d :: ds0) := by
      apply parseSign_of_digit_head
      intro c hc
      have hdc : d = c := by simpa using hc
      rw [← hdc]
      exact hds d (by simp)
    have hnum := parseNumeric_digits (d :: ds0) (by simp) hds
    simp only [pyDecOfChars, hfl, hst, hsign, hnum]
  · have hmem : ∀ c ∈ (d :: ds0) ++ '.' :: fs,
        isAsciiDigit c = true ∨ c = '.' := by
      intro c hc
      rcases List.mem_append.mp hc with hc | hc
      · exact Or.inl (hds c hc)
      · rcases List.mem_cons.mp hc with hc | hc
        · exact Or.inr hc
        · exact Or.inl (hfs c hc)
    have hnu : ∀ c ∈ (d :: ds0) ++ '.' :: fs, c ≠ '_' := by
      intro c hc
      rcases hmem c hc with h | h
      · exact digit_ne_underscore c h
      · rw [h]; decide
    have hns : ∀ c ∈ (d :: ds0) ++ '.' :: fs, isPySpace c = false := by
      intro c hc
      rcases hmem c hc with h | h
      · exact digit_not_space c h
      · rw [h]; decide
    have hfl := filter_underscore_eq_self _ hnu
    have hst := pyStrip_eq_self _ hns
    have hsign : parseSign ((d :: ds0) ++ '.' :: fs) =
        (false, (d :: ds0) ++ '.' :: fs) := by
      apply parseSign_of_digit_head
      intro c hc
      have hdc : d = c := by simpa using hc
      rw [← hdc]
      exact hds d (by simp)
    have hnum := parseNumeric_digits_frac (d :: ds0) fs (by simp) hds hfs
    simp only [pyDecOfChars, hfl, hst, hsign, hnum]

/-! ## Supporting lemmas: the framed decoder -/

/-- The slice `data[2:-2]` of a tagged frame is its interior. -/
theorem pySlice2m2_wrap (mid : List Char) :
    pySlice2m2 (tagFront ++ mid ++ tagBack) = mid := by
  have hassoc : tagFront ++ mid ++ tagBack = tagFront ++ (mid ++ tagBack) := by
    simp [List.append_assoc]
  rw [pySlice2m2, hassoc]
  have hdrop : (tagFront ++ (mid ++ tagBack)).drop 2 = mid ++ tagBack := by
    rw [show (2 : Nat) = tagFront.length from rfl, List.drop_left]
  have hlen : (tagFront ++ (mid ++ tagBack)).length - 4 = mid.length := by
    simp [tagFront, tagBack]
  rw [hdrop, hlen, List.take_left]

/-- A tagged frame passes the front-tag check. -/
theorem frontTagOk_wrap (mid : List Char) :
    frontTagOk (tagFront ++ mid ++ tagBack) = true := by
  simp [frontTagOk, tagFront, tagBack]

/-- A tagged frame passes the back-tag check. -/
theorem backTagOk_wrap (mid : List Char) :
    backTagOk (tagFront ++ mid ++ tagBack) = true := by
  have hassoc : tagFront ++ mid ++ tagBack = (tagFront ++ mid) ++ tagBack := rfl
  rw [backTagOk, hassoc]
  have hlen : ((tagFront ++ mid) ++ tagBack).length - 2 = (tagFront ++ mid).length := by
    simp [tagFront, tagBack]
  rw [hlen, List.drop_left]
  simp

/-- Decoding a tagged frame around a whitespace-free magnitude that does
not itself start with a minus reduces to the sign multiplication of its
decimal parse. -/
theorem decodeChars_wrap (neg : Bool) (mag : List Char) (r : PyDec)
    (hnospace : ∀ c ∈ mag, isPySpace c = false)
    (hhead : ∀ c, mag.head? = some c → ¬c = '-')
    (hpd : pyDecOfChars mag = some r) :
    decodeChars (tagFront ++ ((if neg then ['-'] else []) ++ mag) ++ tagBack) =
      pyMulSign neg r := by
  have hmid : ∀ c ∈ (if neg then ['-'] else []) ++ mag, isPySpace c = false := by
    intro c hc
    rcases List.mem_append.mp hc with hc | hc
    · cases neg with
      | true =>
        simp only [if_true, List.mem_singleton] at hc
        rw [hc]; decide
      | false => simp at hc
    · exact hnospace c hc
  have hframe : ∀ c ∈ tagFront ++ ((if neg then ['-'] else []) ++ mag) ++ tagBack,
      isPySpace c = false := by
    intro c hc
    rcases List.mem_append.mp hc with hc | hc
    · rcases List.mem_append.mp hc with hc | hc
      · fin_cases hc <;> decide
      · exact hmid c hc
    · fin_cases hc <;> decide
  rw [decodeChars, pyStrip_eq_self _ hframe, frontTagOk_wrap, backTagOk_wrap]
  simp only [Bool.and_self, if_true]
  rw [pySlice2m2_wrap]
  cases neg with
  | false =>
    have hneg : decide ((([] : List Char) ++ mag).head? = some '-') = false := by
      simp only [List.nil_append]
      apply decide_eq_false
      intro hcon
      exact hhead _ hcon rfl
    simp only [Bool.false_eq_true, if_false, List.nil_append] at hneg ⊢
    rw [hneg]
    simp only [Bool.false_eq_true, if_false, hpd]
  | true =>
    have hneg : decide (((['-'] : List Char) ++ mag).head? = some '-') = true := by
      simp
    simp only [if_true] at hneg ⊢
    rw [hneg]
    simp only [if_true, List.singleton_append, List.drop_one, List.tail_cons, hpd]

/-- ASCII decoding of bytes that came from ASCII characters. -/
theorem asciiDecode_map (l : List Char) (h : ∀ c ∈ l, c.toNat < 128) :
    asciiDecode? (l.map Char.toNat) = some l := by
  have hall : (l.map Char.toNat).all (fun b => decide (b < 128)) = true := by
    apply List.all_eq_true.mpr
    intro b hb
    obtain ⟨c, hc, rfl⟩ := List.mem_map.mp hb
    exact decide_eq_true (h c hc)
  rw [asciiDecode?, if_pos hall, List.map_map]
  congr 1
  have hcg : ∀ c ∈ l, (Char.ofNat ∘ Char.toNat) c = id c := by
    intro c _
    exact Char.ofNat_toNat c
  rw [List.map_congr_left hcg, List.map_id]

/-- ASCII decode only ever returns the character image of the bytes. -/
theorem asciiDecode_some (raw : List Nat) (cs : List Char)
    (h : asciiDecode? raw = some cs) : cs = raw.map Char.ofNat := by
  rw [asciiDecode?] at h
  by_cases hall : raw.all (fun b => decide (b < 128)) = true
  · rw [if_pos hall] at h
    exact (Option.some.inj h).symm
  · rw [if_neg hall] at h
    cases h

/-- All bytes of a pattern frame are ASCII. -/
theorem frame_bytes_lt128 (neg : Bool) (mag : List Char)
    (hmag : ∀ c ∈ mag, c.toNat < 128) :
    ∀ c ∈ tagFront ++ ((if neg then ['-'] else []) ++ mag) ++ tagBack, c.toNat < 128 := by
  intro c hc
  rcases List.mem_append.mp hc with hc | hc
  · rcases List.mem_append.mp hc with hc | hc
    · fin_cases hc <;> decide
    · rcases List.mem_append.mp hc with hc | hc
      · cases neg with
        | true =>
          simp only [if_true, List.mem_singleton] at hc
          rw [hc]; decide
        | false => simp at hc
      · exact hmag c hc
  · fin_cases hc <;> decide

/-! ## Claim C2: decoding of valid frames -/

/-- Claim C2 (amended).  For every frame of the form
`sg <-?> <digits> [. <digits>] kg` whose coefficient has at most 28
significant digits (the `decimal` context precision), `decode` accepts the
frame and returns exactly the decimal the digit sequence denotes: a
leading `-` negates the magnitude, no sign is positive, and an all-zero
digit string decodes to zero.  (Beyond 28 significant digits the sign
multiplication rounds the value, see the counterexample.) -/
theorem decode_valid_frames (neg : Bool) (ds : List Char) (ofs : Option (List Char))
    (hne : ds ≠ []) (hds : ∀ c ∈ ds, isAsciiDigit c = true)
    (hofs : ∀ gs, ofs = some gs → gs ≠ [] ∧ ∀ c ∈ gs, isAsciiDigit c = true)
    (hprec : natOfDigits (ds ++ ofs.getD []) < 10 ^ decPrecision) :
    decodeFrameVal? (mkFrame neg ds ofs) = some (exactVal neg ds ofs) := by
  have hdhead : ∀ c, ds.head? = some c → ¬c = '-' := by
    intro c hc
    cases ds with
    | nil => simp at hc
    | cons d t =>
      have : d = c := by simpa using hc
      rw [← this]
      exact digit_ne_minus d (hds d (by simp))
  cases ofs with
  | none =>
    simp only [Option.getD_none, List.append_nil] at hprec
    have hmagsp : ∀ c ∈ ds, isPySpace c = false :=
      fun c hc => digit_not_space c (hds c hc)
    have hpd : pyDecOfChars ds = some (.num false (natOfDigits ds) 0) := by
      have := pyDecOfChars_digits ds [] none hne hds (Or.inl ⟨rfl, rfl⟩) (by simp)
      simpa using this
    have hdc := decodeChars_wrap neg ds _ hmagsp hdhead hpd
    have hlt : ∀ c ∈ ds, c.toNat < 128 := fun c hc => digit_lt128 c (hds c hc)
    have hframe : mkFrame neg ds none =
        (tagFront ++ ((if neg then ['-'] else []) ++ ds) ++ tagBack).map Char.toNat := by
      simp [mkFrame, List.append_assoc]
    rw [decodeFrameVal?, hframe]
    simp only [decodeFrame, asciiDecode_map _ (frame_bytes_lt128 neg ds hlt), hdc]
    rw [show pyMulSign neg (PyDec.num false (natOfDigits ds) 0) =
      some (.num (xor neg false) (roundPrec (natOfDigits ds) 0).1
        (roundPrec (natOfDigits ds) 0).2) from rfl]
    simp only [roundPrec, if_pos hprec, Bool.xor_false]
    cases neg with
    | false =>
      simp [PyDec.val?, exactVal, natOfDigits]
      rfl
    | true =>
      simp [PyDec.val?, exactVal, natOfDigits]
      rfl
  | some fs =>
    obtain ⟨hfne, hfs⟩ := hofs fs rfl
    simp only [Option.getD_some] at hprec
    have hmagsp : ∀ c ∈ ds ++ '.' :: fs, isPySpace c = false := by
      intro c hc
      rcases List.mem_append.mp hc with hc | hc
      · exact digit_not_space c (hds c hc)
      · rcases List.mem_cons.mp hc with hc | hc
        · rw [hc]; decide
        · exact digit_not_space c (hfs c hc)
    have hmaghead : ∀ c, (ds ++ '.' :: fs).head? = some c → ¬c = '-' := by
      intro c hc
      cases ds with
      | nil => exact absurd rfl hne
      | cons d t =>
        have : d = c := by simpa using hc
        rw [← this]
        exact digit_ne_minus d (hds d (by simp))
    have hpd : pyDecOfChars (ds ++ '.' :: fs) =
        some (.num false (natOfDigits (ds ++ fs)) (-(fs.length : Int))) := by
      have := pyDecOfChars_digits ds fs (some fs) hne hds (Or.inr ⟨rfl, hfne⟩) hfs
      simpa using this
    have hdc := decodeChars_wrap neg (ds ++ '.' :: fs) _ hmagsp hmaghead hpd
    have hlt : ∀ c ∈ ds ++ '.' :: fs, c.toNat < 128 := by
      intro c hc
      rcases List.mem_append.mp hc with hc | hc
      · exact digit_lt128 c (hds c hc)
      · rcases List.mem_cons.mp hc with hc | hc
        · rw [hc]; decide
        · exact digit_lt128 c (hfs c hc)
    have hframe : mkFrame neg ds (some fs) =
        (tagFront ++ ((if neg then ['-'] else []) ++ (ds ++ '.' :: fs)) ++ tagBack).map
          Char.toNat := by
      simp [mkFrame, List.append_assoc]
    rw [decodeFrameVal?, hframe]
    simp only [decodeFrame, asciiDecode_map _ (frame_bytes_lt128 neg _ hlt), hdc]
    rw [show pyMulSign neg (PyDec.num false (natOfDigits (ds ++ fs)) (-(fs.length : Int))) =
      some (.num (xor neg false) (roundPrec (natOfDigits (ds ++ fs)) (-(fs.length : Int))).1
        (roundPrec (natOfDigits (ds ++ fs)) (-(fs.length : Int))).2) from rfl]
    simp only [roundPrec, if_pos hprec, Bool.xor_false]
    have hco : (natOfDigits (ds ++ fs) : ℚ) =
        natOfDigits ds * 10 ^ fs.length + natOfDigits fs := by
      rw [natOfDigits_append]
      push_cast
      ring
    have hzp : (10 : ℚ) ^ (-(fs.length : Int)) = ((10 : ℚ) ^ fs.length)⁻¹ := by
      rw [zpow_neg, zpow_natCast]
    have hpow : ((10 : ℚ) ^ fs.length) ≠ 0 := by positivity
    simp only [PyDec.val?, exactVal, Option.some_bind, Option.getD_some, Option.some.injEq]
    rw [hco, hzp]
    field_simp

/-- Claim C2 witness: the frame `sg-12.34kg` decodes to `-12.34`, and the
all-zero frame `sg0000.00kg` decodes to `0.00`. -/
theorem decode_valid_frames_witness :
    decodeFrameVal? (mkFrame true ['1', '2'] (some ['3', '4'])) =
      some (exactVal true ['1', '2'] (some ['3', '4'])) ∧
    decodeFrameVal? (mkFrame false ['0', '0', '0', '0'] (some ['0', '0'])) =
      some (exactVal false ['0', '0', '0', '0'] (some ['0', '0'])) :=
  ⟨decode_valid_frames true ['1', '2'] (some ['3', '4']) (by decide) (by decide)
      (fun gs hgs => by
        cases hgs
        exact ⟨by decide, by decide⟩)
      (by decide),
    decode_valid_frames false ['0', '0', '0', '0'] (some ['0', '0']) (by decide) (by decide)
      (fun gs hgs => by
        cases hgs
        exact ⟨by decide, by decide⟩)
      (by decide)⟩

/-- Claim C2 counterexample: the valid pattern frame carrying twenty-nine
`1` digits is accepted, but the reading's value is the 28-digit rounding
`11111111111111111111111111110`, not the exact decimal
`11111111111111111111111111111` the digit sequence denotes — the sign
multiplication rounds to the context precision of 28 significant digits. -/
theorem decode_overprecision_counterexample :
    strBytes "sg11111111111111111111111111111kg" =
      mkFrame false (List.replicate 29 '1') none ∧
    matchesPattern (strBytes "sg11111111111111111111111111111kg") = true ∧
    decodeFrame (strBytes "sg11111111111111111111111111111kg") =
      some (PyDec.num false 1111111111111111111111111111 1) ∧
    decodeFrameVal? (strBytes "sg11111111111111111111111111111kg") =
      some (11111111111111111111111111110 : ℚ) ∧
    exactVal false (List.replicate 29 '1') none =
      (11111111111111111111111111111 : ℚ) ∧
    (11111111111111111111111111110 : ℚ) ≠ (11111111111111111111111111111 : ℚ) := by
  have h2 : decodeFrame (strBytes "sg11111111111111111111111111111kg") =
      some (PyDec.num false 1111111111111111111111111111 1) := by decide
  refine ⟨by decide, by decide, h2, ?_, ?_, by decide⟩
  · rw [decodeFrameVal?, h2, Option.some_bind]
    simp only [PyDec.val?, Bool.false_eq_true, if_false]
    norm_num
  · simp only [exactVal, Option.getD_none]
    rw [show natOfDigits (List.replicate 29 '1') = 11111111111111111111111111111 from by decide,
      show natOfDigits [] = 0 from rfl]
    norm_num

/-! ## Claim C3: rejection of invalid frames -/

/-- Claim C3 (amended).  Every frame that is not ASCII, lacks the `sg`
front tag or the `kg` back tag, or whose interior (after the decoder's own
`-` strip) is rejected by the decimal grammar, decodes to a clean
DecodeError (`none`), never an unhandled fault; the spec's example
rejections, the empty frame and a non-ASCII frame all fail cleanly.
However acceptance is not limited to the pattern
`<prefix><sign?><digits>[.<digits>]<suffix>` — anything Python's
`Decimal` grammar accepts passes, see the counterexample. -/
theorem decode_reject_invalid :
    ∀ raw : List Nat,
      (raw.all (fun b => b < 128) = false → decodeFrame raw = none) ∧
      (frontTagOk (pyStrip (raw.map Char.ofNat)) = false → decodeFrame raw = none) ∧
      (backTagOk (pyStrip (raw.map Char.ofNat)) = false → decodeFrame raw = none) ∧
      decodeFrame [] = none ∧
      decodeFrame (strBytes "xx0012.34kg") = none ∧
      decodeFrame (strBytes "wn00AB.00kg") = none ∧
      decodeFrame (strBytes "sg00AB.00kg") = none ∧
      decodeFrame (strBytes "sgkg") = none ∧
      decodeFrame [115, 103, 200, 107, 103] = none ∧
      (∀ cs, asciiDecode? raw = some cs →
        pyDecOfChars (if decide ((pySlice2m2 (pyStrip cs)).head? = some '-') = true
          then (pySlice2m2 (pyStrip cs)).drop 1 else pySlice2m2 (pyStrip cs)) = none →
        decodeFrame raw = none) := by
  intro raw
  refine ⟨?_, ?_, ?_, by decide, by decide, by decide, by decide, by decide, by decide, ?_⟩
  · intro h
    simp [decodeFrame, asciiDecode?, h]
  · intro h
    rw [decodeFrame]
    cases hdec : asciiDecode? raw with
    | none => rfl
    | some cs =>
      rw [asciiDecode_some raw cs hdec] at *
      simp [decodeChars, h]
  · intro h
    rw [decodeFrame]
    cases hdec : asciiDecode? raw with
    | none => rfl
    | some cs =>
      rw [asciiDecode_some raw cs hdec] at *
      simp [decodeChars, h]
  · intro cs hdec hpd
    rw [decodeFrame, hdec]
    simp only [decodeChars]
    by_cases hfb : (frontTagOk (pyStrip cs) && backTagOk (pyStrip cs)) = true
    · rw [if_pos hfb, hpd]
    · rw [if_neg hfb]

/-- Claim C3 counterexample: the frame `sg--0005.00kg` does not match the
pattern `<prefix><sign?><digits>[.<digits>]<suffix>`, yet the decoder
accepts it and returns `+5.00` — the hand-rolled sign strip removes one
`-` and `Decimal` consumes the second, so the two signs cancel. -/
theorem decode_double_sign_counterexample :
    decodeFrame (strBytes "sg--0005.00kg") = some (PyDec.num false 500 (-2)) ∧
    decodeFrameVal? (strBytes "sg--0005.00kg") = some (5 : ℚ) ∧
    matchesPattern (strBytes "sg--0005.00kg") = false := by
  have h1 : decodeFrame (strBytes "sg--0005.00kg") = some (PyDec.num false 500 (-2)) := by
    decide
  refine ⟨h1, ?_, by decide⟩
  rw [decodeFrameVal?, h1, Option.some_bind]
  simp only [PyDec.val?, Bool.false_eq_true, if_false]
  norm_num

/-! ## Claim C6: exact decimals and the float conversion -/

/-- The 17-significant-digit frame decodes to its exact decimal. -/
theorem decodeVal_seventeen :
    decodeFrameVal? (strBytes "sg0.10000000000000001kg") =
      some ((10000000000000001 : ℚ) / 100000000000000000) := by
  have h1 : decodeFrame (strBytes "sg0.10000000000000001kg") =
      some (PyDec.num false 10000000000000001 (-17)) := by decide
  rw [decodeFrameVal?, h1, Option.some_bind]
  simp only [PyDec.val?, Bool.false_eq_true, if_false]
  rw [show (-17 : ℤ) = -(17 : ℕ) from by norm_num, zpow_neg, zpow_natCast]
  norm_num

/-- The binary64 image of `0.10000000000000001` is the dyadic
`3602879701896397 / 2^55` (the double written `0.1`). -/
theorem pyFloat_seventeen :
    pyFloat ((10000000000000001 : ℚ) / 100000000000000000) =
      (3602879701896397 : ℚ) / 36028797018963968 := by
  have hq : (10000000000000001 : ℚ) / 100000000000000000 =
      Rat.mk' 10000000000000001 100000000000000000 (by norm_num) (by norm_num) := by
    rw [Rat.mk'_eq_divInt, Rat.divInt_eq_div]
    norm_num
  have hnum : ((10000000000000001 : ℚ) / 100000000000000000).num = 10000000000000001 := by
    rw [hq]
  have hden : ((10000000000000001 : ℚ) / 100000000000000000).den = 100000000000000000 := by
    rw [hq]
  rw [pyFloat, hnum, hden]
  norm_num
  rw [show ((10000000000000001 : ℤ)).toNat = 10000000000000001 from rfl]
  rw [float64Pos]
  rw [show scaleExp 10000000000000001 100000000000000000 = 56 from by decide]
  rw [show roundHalfEvenDiv (10000000000000001 * 2 ^ ((56 : Int)).toNat)
    (100000000000000000 * 2 ^ ((-(56 : Int)).toNat)) = 7205759403792794 from by decide]
  norm_num

/-- Claim C6 (amended).  Parsing is exact decimal (a valid frame's reading
carries the exact decimal value, here the 17-digit `0.10000000000000001`),
but both persistence paths serialise `float(weight)` — the nearest
binary64 — so the JSON weight is the rounded dyadic, not the exact
decimal, whenever the decimal is not a binary64 value. -/
theorem measurement_weight_rounded :
    ∀ (w : ℚ) (u : Bool),
      save_measurement w u = MeasFile.withFlag (pyFloat w) u ∧
      publish_measurement true w =
        ([Ev.publishAttempt, Ev.publishLocalCopy],
          [MeasFile.payloadCopy (pyFloat w)], true) ∧
      decodeFrameVal? (strBytes "sg0.10000000000000001kg") =
        some ((10000000000000001 : ℚ) / 100000000000000000) ∧
      pyFloat ((10000000000000001 : ℚ) / 100000000000000000) =
        (3602879701896397 : ℚ) / 36028797018963968 ∧
      (3602879701896397 : ℚ) / 36028797018963968 ≠
        (10000000000000001 : ℚ) / 100000000000000000 := by
  intro w u
  refine ⟨rfl, rfl, decodeVal_seventeen, pyFloat_seventeen, by norm_num⟩

/-- Claim C6 counterexample: the reading decoded from
`sg0.10000000000000001kg` has the exact decimal value, but the weight
field that `publish_measurement` puts in the payload and local copy (and
that `save_measurement` would persist) is the binary64 rounding, which
differs from the exact decimal. -/
theorem float_rounding_counterexample :
    decodeFrameVal? (strBytes "sg0.10000000000000001kg") =
      some ((10000000000000001 : ℚ) / 100000000000000000) ∧
    (publish_measurement true ((10000000000000001 : ℚ) / 100000000000000000)).2.1 =
      [MeasFile.payloadCopy ((3602879701896397 : ℚ) / 36028797018963968)] ∧
    save_measurement ((10000000000000001 : ℚ) / 100000000000000000) false =
      MeasFile.withFlag ((3602879701896397 : ℚ) / 36028797018963968) false ∧
    (3602879701896397 : ℚ) / 36028797018963968 ≠
      (10000000000000001 : ℚ) / 100000000000000000 := by
  refine ⟨decodeVal_seventeen, ?_, ?_, by norm_num⟩
  · rw [show (publish_measurement true ((10000000000000001 : ℚ) / 100000000000000000)).2.1 =
      [MeasFile.payloadCopy (pyFloat ((10000000000000001 : ℚ) / 100000000000000000))] from
      rfl]
    rw [pyFloat_seventeen]
  · rw [show save_measurement ((10000000000000001 : ℚ) / 100000000000000000) false =
      MeasFile.withFlag (pyFloat ((10000000000000001 : ℚ) / 100000000000000000)) false from
      rfl]
    rw [pyFloat_seventeen]

/-! ## Claim C8: the bounded acquisition loop -/

/-- Invariants of the polling loop, by induction on the attempt budget. -/
theorem readWeightAux_spec (s : Nat → Option (List Nat)) :
    ∀ (fuel start : Nat),
      (readWeightAux s fuel start).2 ≤ fuel ∧
      ((readWeightAux s fuel start).1 = none →
        (readWeightAux s fuel start).2 = fuel ∧
          ∀ j < fuel, readAttempt (s (start + j)) = none) ∧
      (∀ w, (readWeightAux s fuel start).1 = some w →
        ∃ j < fuel, readAttempt (s (start + j)) = some w ∧
          ∀ k < j, readAttempt (s (start + k)) = none) := by
  intro fuel
  induction fuel with
  | zero =>
    intro start
    refine ⟨le_refl _, fun _ => ⟨rfl, by omega⟩, fun w hw => by simp [readWeightAux] at hw⟩
  | succ n ih =>
    intro start
    rcases ha : readAttempt (s start) with _ | w0
    · have hstep : readWeightAux s (n + 1) start =
          ((readWeightAux s n (start + 1)).1, (readWeightAux s n (start + 1)).2 + 1) := by
        simp [readWeightAux, ha]
      obtain ⟨ih1, ih2, ih3⟩ := ih (start + 1)
      refine ⟨by rw [hstep]; omega, ?_, ?_⟩
      · intro hnone
        rw [hstep] at hnone
        obtain ⟨hlen, hall⟩ := ih2 hnone
        refine ⟨by rw [hstep]; simpa using hlen, ?_⟩
        intro j hj
        cases j with
        | zero => simpa using ha
        | succ k =>
          have := hall k (by omega)
          have harr : start + 1 + k = start + (k + 1) := by omega
          rwa [harr] at this
      · intro w hw
        rw [hstep] at hw
        obtain ⟨j, hj, hw2, hbefore⟩ := ih3 w hw
        refine ⟨j + 1, by omega, ?_, ?_⟩
        · have harr : start + 1 + j = start + (j + 1) := by omega
          rwa [harr] at hw2
        · intro k hk
          cases k with
          | zero => simpa using ha
          | succ k2 =>
            have := hbefore k2 (by omega)
            have harr : start + 1 + k2 = start + (k2 + 1) := by omega
            rwa [harr] at this
    · have hstep : readWeightAux s (n + 1) start = (some w0, 0) := by
        simp [readWeightAux, ha]
      refine ⟨by rw [hstep]; omega, by rw [hstep]; intro h; simp at h, ?_⟩
      intro w hw
      rw [hstep] at hw
      simp at hw
      exact ⟨0, by omega, by simpa [hw] using ha, by omega⟩

/-- Claim C8.  For every byte-stream schedule, `read_weight` performs at
most five attempts (sleeping half a second after each failed one, so the
second output, the sleep count, is at most 5); when every one of the first
five attempts fails it gives up with the no-reading error after exactly
five sleeps, when a reading comes back it is the first decodable frame
among the five; the loop never runs unboundedly and always answers with
either the error or a reading. -/
theorem readWeight_bounded :
    ∀ s : Nat → Option (List Nat),
      (read_weight s).2 ≤ 5 ∧
      ((read_weight s).1 = Except.error noReadingMsg →
        (read_weight s).2 = 5 ∧ ∀ i < 5, readAttempt (s i) = none) ∧
      (∀ w, (read_weight s).1 = Except.ok w →
        ∃ i < 5, readAttempt (s i) = some w ∧ ∀ j < i, readAttempt (s j) = none) ∧
      ((read_weight s).1 = Except.error noReadingMsg ∨
        ∃ w, (read_weight s).1 = Except.ok w) := by
  intro s
  obtain ⟨h1, h2, h3⟩ := readWeightAux_spec s 5 0
  rcases hr : (readWeightAux s 5 0).1 with _ | w
  · have hrw : read_weight s = (Except.error noReadingMsg, (readWeightAux s 5 0).2) := by
      simp [read_weight, hr]
    rw [hrw]
    obtain ⟨hlen, hall⟩ := h2 hr
    refine ⟨h1, fun _ => ⟨hlen, fun i hi => by simpa using hall i hi⟩,
      fun w hw => by simp at hw, Or.inl rfl⟩
  · have hrw : read_weight s = (Except.ok w, (readWeightAux s 5 0).2) := by
      simp [read_weight, hr]
    rw [hrw]
    refine ⟨h1, fun h => by simp at h, ?_, Or.inr ⟨w, rfl⟩⟩
    intro w2 hw2
    simp at hw2
    subst hw2
    obtain ⟨j, hj, hsome, hnone⟩ := h3 w hr
    exact ⟨j, hj, by simpa using hsome, fun k hk => by simpa using hnone k hk⟩

/-! ## Claim C7: fatal startup validation -/

/-- Claim C7.  When the config file is missing, a required field for the
selected connection type is missing (rs232 needs serial_port and
baud_rate, bluetooth needs bluetooth_mac), or a certificate, key or root
CA file is missing, `main` exits with status 1 and the run performs no
sensor read and no publish. -/
theorem startup_validation_fatal :
    ∀ (dev : Option DevKind) (e : RunEnv),
      (e.configFileExists = false ∨
        (∃ f ∈ requiredFields dev, lookupKey e.config f = none) ∨
        certsOk e = false) →
      (mainRun dev e).1 = 1 ∧
      Ev.sensorRead ∉ (mainRun dev e).2.1 ∧
      Ev.publishAttempt ∉ (mainRun dev e).2.1 := by
  intro dev e h
  rcases h with h | ⟨f, hf, hnone⟩ | h
  · simp [mainRun, load_config, h]
  · have hall : (requiredFields dev).all (fun f => (lookupKey e.config f).isSome) = false := by
      simp only [List.all_eq_false]
      exact ⟨f, hf, by simp [hnone]⟩
    have herr : ∃ msg, load_config dev e = .error msg := by
      by_cases hc : e.configFileExists = false
      · exact ⟨"Config file not found", by simp [load_config, hc]⟩
      · refine ⟨"Missing required config fields", ?_⟩
        simp only [load_config, if_neg hc, hall]
        rfl
    obtain ⟨msg, herr⟩ := herr
    simp [mainRun, herr]
  · cases hlc : load_config dev e with
    | error msg => simp [mainRun, hlc]
    | ok cfg => simp [mainRun, hlc, h]

/-- Claim C7 witness: a run with the config file absent exits with status
1 without reading the sensor or publishing. -/
theorem startup_validation_fatal_witness :
    (mainRun (some DevKind.rs232)
      { configFileExists := false, config := [], certPresent := true,
        keyPresent := true, rootPresent := true, connectOk := true,
        readResult := none, publishOk := true }).1 = 1 ∧
    Ev.sensorRead ∉ (mainRun (some DevKind.rs232)
      { configFileExists := false, config := [], certPresent := true,
        keyPresent := true, rootPresent := true, connectOk := true,
        readResult := none, publishOk := true }).2.1 ∧
    Ev.publishAttempt ∉ (mainRun (some DevKind.rs232)
      { configFileExists := false, config := [], certPresent := true,
        keyPresent := true, rootPresent := true, connectOk := true,
        readResult := none, publishOk := true }).2.1 :=
  startup_validation_fatal (some DevKind.rs232) _ (Or.inl rfl)

/-! ## Claim C1: the persist-before-publish ordering -/

/-- Claim C1 evaluation at the failing input.  In a fully healthy run of
`main` (rs232 device, complete config, certificates present, broker
connected) where a reading of 12.34 kg is acquired and the publish then
fails, the trace shows the publish was attempted with no persist step
before it, and the measurement directory is left empty: the acquired
reading is lost, there is no `uploaded=false` record to retry.
`save_measurement` — the operation the specification's ordering needs —
exists in the source but is never called by `main`, and
`publish_measurement` writes its local copy only after a successful
publish. -/
theorem publish_failure_reading_lost :
    mainRun (some DevKind.rs232)
      { configFileExists := true,
        config := [("device_id", "d"), ("iot_endpoint", "e"), ("stage", "prod"),
          ("serial_port", "s"), ("baud_rate", "1200"), ("connection_type", "rs232")],
        certPresent := true, keyPresent := true, rootPresent := true,
        connectOk := true, readResult := some (617 / 50), publishOk := false } =
      (1, [Ev.configLoaded, Ev.iotInit, Ev.mqttConnect, Ev.sensorRead,
        Ev.publishAttempt, Ev.mqttDisconnect], []) := by
  rfl

/-! ## Claim C4: the measurement store (modelled from the spec) -/

/-- Marking a timestamp leaves no unsent record under that key. -/
theorem markUploaded_covers (s : List Measurement) (ts : Nat) :
    ∀ x ∈ markUploaded s ts, x.timestamp = ts → x.uploaded = true := by
  intro x hx hts
  simp only [markUploaded, List.mem_map] at hx
  obtain ⟨y, _, hy⟩ := hx
  by_cases h : y.timestamp = ts
  · rw [if_pos h] at hy
    rw [← hy]
  · rw [if_neg h] at hy
    subst hy
    exact absurd hts h

/-- One store operation that appends no record under the key preserves the
all-uploaded property of that key. -/
theorem applyOp_preserves_covered (t : List Measurement) (ts : Nat) (op : StoreOp)
    (hinv : ∀ x ∈ t, x.timestamp = ts → x.uploaded = true)
    (hop : ∀ m2, op = StoreOp.app m2 → m2.timestamp ≠ ts) :
    ∀ x ∈ applyOp t op, x.timestamp = ts → x.uploaded = true := by
  intro x hx hts
  cases op with
  | app m2 =>
    simp only [applyOp, appendMeas, List.mem_append, List.mem_singleton] at hx
    rcases hx with hx | hx
    · exact hinv x hx hts
    · subst hx
      exact absurd hts (hop _ rfl)
  | mark ts2 =>
    simp only [applyOp, markUploaded, List.mem_map] at hx
    obtain ⟨y, hy, hxy⟩ := hx
    by_cases h : y.timestamp = ts2
    · rw [if_pos h] at hxy
      rw [← hxy]
    · rw [if_neg h] at hxy
      subst hxy
      exact hinv _ hy hts

/-- The covering invariant survives any operation sequence whose appends
avoid the key. -/
theorem applyOps_preserves_covered (ts : Nat) (ops : List StoreOp) :
    ∀ t : List Measurement,
      (∀ x ∈ t, x.timestamp = ts → x.uploaded = true) →
      (∀ m2, StoreOp.app m2 ∈ ops → m2.timestamp ≠ ts) →
      ∀ x ∈ applyOps t ops, x.timestamp = ts → x.uploaded = true := by
  induction ops with
  | nil => intro t hinv _; exact hinv
  | cons op rest ih =>
    intro t hinv hops
    have h1 : ∀ x ∈ applyOp t op, x.timestamp = ts → x.uploaded = true :=
      applyOp_preserves_covered t ts op hinv
        (fun m2 heq => hops m2 (by rw [heq]; exact List.mem_cons_self _ _))
    exact ih (applyOp t op) h1 (fun m2 hm => hops m2 (List.mem_cons_of_mem _ hm))

/-- Claim C4.  `pendingUnsent` returns unsent records in store
(oldest-first) order bounded by the limit; an appended, never-uploaded
measurement appears in it whenever the limit covers the pending backlog;
and once `markUploaded` is called on its timestamp key, no record under
that key ever reappears in `pendingUnsent`, whatever store operations
(appends of other keys, further marks) follow. -/
theorem pendingUnsent_spec :
    ∀ (s : List Measurement) (m : Measurement) (limit : Nat) (ops : List StoreOp),
      (pendingUnsent s limit).Sublist (s.filter (fun x => !x.uploaded)) ∧
      (pendingUnsent s limit).length ≤ limit ∧
      (m ∈ s → m.uploaded = false →
        (s.filter (fun x => !x.uploaded)).length ≤ limit →
        m ∈ pendingUnsent s limit) ∧
      ((∀ m2, StoreOp.app m2 ∈ ops → m2.timestamp ≠ m.timestamp) →
        ∀ x ∈ pendingUnsent (applyOps (markUploaded s m.timestamp) ops) limit,
          x.timestamp ≠ m.timestamp) := by
  intro s m limit ops
  refine ⟨List.take_sublist _ _, ?_, ?_, ?_⟩
  · simp [pendingUnsent]
  · intro hm hup hlen
    have hfil : m ∈ s.filter (fun x => !x.uploaded) := by
      simp [List.mem_filter, hm, hup]
    rw [pendingUnsent, List.take_of_length_le hlen]
    exact hfil
  · intro hops x hx hts
    have hinv := applyOps_preserves_covered m.timestamp ops (markUploaded s m.timestamp)
      (markUploaded_covers s m.timestamp) hops
    have hxmem : x ∈ applyOps (markUploaded s m.timestamp) ops := by
      have h1 : x ∈ (applyOps (markUploaded s m.timestamp) ops).filter
          (fun x => !x.uploaded) := List.mem_of_mem_take hx
      exact (List.mem_filter.mp h1).1
    have hq : x.uploaded = true := hinv x hxmem hts
    have h1 : x ∈ (applyOps (markUploaded s m.timestamp) ops).filter
        (fun x => !x.uploaded) := List.mem_of_mem_take hx
    have := (List.mem_filter.mp h1).2
    rw [hq] at this
    simp at this

/-! ## Claim C5: the reconnect delay -/

/-- Claim C5 counterexample: the reconnect delay `CloudControl.run`
actually produces (a constant 5 seconds) satisfies no backoff schedule of
the spec's form `min (2 * 2^n + jitter) 60` with jitter in `[0, 1]` —
already the first delay would have to lie in `[2, 3]`, but it is 5. -/
theorem cloudControl_backoff_refuted : specBackoff 2 60 cloudControlDelay = False := by
  apply eq_false
  rintro ⟨jit, hj, he⟩
  have h0 := he 0
  have hd : cloudControlDelay 0 = 5 := rfl
  rw [hd] at h0
  have h1 : min (2 * (2 : ℚ) ^ (0 : ℕ) + jit 0) 60 ≤ 2 * (2 : ℚ) ^ (0 : ℕ) + jit 0 :=
    min_le_left _ _
  have h2 := (hj 0).2
  rw [← h0] at h1
  norm_num at h1
  linarith

/-- Claim C5 (amended).  The delay between consecutive connection cycles
of `CloudControl.run` is the constant 5 seconds, independent of how many
consecutive failures precede it: the sleep sequence of any run is constant
5, the delay after the n-th consecutive failure is 5, and the sequence is
(trivially) non-decreasing — there is no doubling factor, no jitter, no
60-second cap and no reset on success. -/
theorem cloudControl_delay_constant :
    ∀ (outcomes : List Bool) (n : Nat),
      cloudControlSleeps outcomes = List.replicate outcomes.length 5 ∧
      cloudControlDelay n = 5 ∧ cloudControlDelay n ≤ cloudControlDelay (n + 1) := by
  intro outcomes n
  have hc : ∀ k : Nat, cloudControlDelay k = 5 := by
    intro k
    simp [cloudControlDelay, cloudControlSleeps, List.getD]
  refine ⟨?_, hc n, by rw [hc n, hc (n + 1)]⟩
  simp [cloudControlSleeps, List.map_const]

/-! ## Claims C9 and C10: the sampling-interval command path -/

/-- Claim C9.  FAST maps to a 60-second interval and SLOW to 1800 seconds,
both through the script and through the admin POST handler; and every
dispatch of the handler is answered — a response with `success = true`, or
a response with `success = false` that carries an error message (missing
rate, invalid rate, script failure, or an exception), never silence. -/
theorem samplingInterval_dispatch :
    ∀ (body : PostBody) (ok : Bool),
      (set_interval_main .fast true).savedConfig = some ⟨.FAST, 60⟩ ∧
      (set_interval_main .slow true).savedConfig = some ⟨.SLOW, 1800⟩ ∧
      (samplingIntervalPost (.obj (some "FAST")) true).2 =
        some (set_interval_main .fast true) ∧
      (samplingIntervalPost (.obj (some "SLOW")) true).2 =
        some (set_interval_main .slow true) ∧
      ((samplingIntervalPost body ok).1.success = true ∨
        ((samplingIntervalPost body ok).1.success = false ∧
          (samplingIntervalPost body ok).1.errorText.isSome = true)) := by
  intro body ok
  refine ⟨rfl, rfl, by decide, by decide, ?_⟩
  cases body with
  | noJson => right; exact ⟨rfl, rfl⟩
  | obj rate =>
    cases rate with
    | none => right; exact ⟨rfl, rfl⟩
    | some r =>
      by_cases hr : pyUpper r ≠ "FAST" ∧ pyUpper r ≠ "SLOW"
      · right
        simp [samplingIntervalPost, hr]
      · cases ok with
        | true =>
          left
          simp only [samplingIntervalPost, if_neg hr]
          by_cases hf : pyUpper r = "FAST" <;>
            simp [hf, set_interval_main, setIntervalFinish, update_service_timer]
        | false =>
          right
          simp only [samplingIntervalPost, if_neg hr]
          by_cases hf : pyUpper r = "FAST" <;>
            simp [hf, set_interval_main, setIntervalFinish, update_service_timer]

/-- Claim C10.  A custom interval is accepted only inside 10..86400
seconds: outside the range the script exits 1 touching nothing; inside the
range the interval config is written (with the requested seconds) exactly
when the service-timer update succeeded, and on a failed update the script
exits 1 with the config file unwritten. -/
theorem setInterval_custom_range :
    ∀ (n : Int) (ok : Bool),
      ((n < 10 ∨ 86400 < n) → set_interval_main (.custom n) ok = ⟨1, none, none⟩) ∧
      (10 ≤ n → n ≤ 86400 →
        (ok = true → set_interval_main (.custom n) ok = ⟨0, some ⟨.CUSTOM, n⟩, some n⟩) ∧
        (ok = false → set_interval_main (.custom n) ok = ⟨1, none, some n⟩)) := by
  intro n ok
  constructor
  · intro h
    simp only [set_interval_main, if_pos (by omega : n < 10 ∨ n > 86400)]
  · intro h1 h2
    have hrange : ¬(n < 10 ∨ n > 86400) := by omega
    constructor <;> intro hok <;>
      simp only [set_interval_main, if_neg hrange, setIntervalFinish,
        update_service_timer, hok, if_pos, if_neg, Bool.false_eq_true,
        ite_true, ite_false]
